import Mathlib

/-!
Shallow embedding of the queue/session engine of `src/hetubed.js` (classes
`Hetubed` and `Queue`), together with theorems settling the specification
claims about it.

Modelling conventions:
* A `Song` keeps an opaque numeric payload `sid` standing for the metadata
  fields (`id`, `title`, `url`, `duration`, `thumbnail`, `source`) that the
  claims never inspect, plus the `member` reference attached at enqueue time
  (`null` becomes `none`).
* External handles (`connection`, `_currentStream`, `_transcoder`,
  `_emptyTimeout`, the audio player) are modelled by whether they are
  attached (`Bool` / presence), which is all the claims quantify over.
* Mutating methods become functions `Queue → Queue × List Event`; the JS
  `this.hetubed.emit(...)` calls become the returned event list.
* `Math.random()`-driven choices are abstracted by an arbitrary oracle
  `rnd : Nat → Nat`; `Math.floor(Math.random() * (i + 1))` becomes
  `rnd i % (i + 1)`, an arbitrary value in `[0, i]`.
-/

namespace Hetubed

/-- A track as stored in `Queue.songs`: opaque resolved metadata plus the
`member` attached by `addSong` (`{...s, member}` in the source). -/
structure Song where
  sid : Nat
  member : Option Nat
deriving DecidableEq, Repr

/-- The engine-level options of the `Hetubed` constructor that the modelled
operations read (defaults as in `src/hetubed.js` lines 46-66). -/
structure HetubedOptions where
  leaveOnEmpty : Bool := true
  leaveOnFinish : Bool := false
  leaveOnStop : Bool := false
  savePreviousSongs : Bool := true
  emitNewSongOnly : Bool := false
  emitAddSongWhenCreatingQueue : Bool := true
  emitAddListWhenCreatingQueue : Bool := true
deriving DecidableEq, Repr

/-- Semantic events emitted through `this.hetubed.emit(...)`. -/
inductive Event where
  | queueCreate
  | addSong (s : Song)
  | addList (ss : List Song)
  | playSong (s : Song)
  | pauseEv
  | resumeEv
  | stop
  | volumeChange (v : Int)
  | repeatChange (m : Nat)
  | shuffled
  | finish
  | empty
  | disconnect
deriving DecidableEq, Repr

/-- The mutable state of one `Queue` instance (`src/hetubed.js` lines
324-434).  `connection`, `emptyTimeout`, `currentStream` and `transcoder`
record whether the corresponding handle is attached (non-null). -/
structure Queue where
  playing : Bool
  paused : Bool
  songs : List Song
  previousSongs : List Song
  currentIndex : Nat
  connection : Bool
  volume : Int
  repeatMode : Nat
  autoplay : Bool
  emptyTimeout : Bool
  currentStream : Bool
  transcoder : Bool
deriving DecidableEq, Repr

/-- The constructor sets `this.maxPreviousSongs = 50`. -/
def maxPreviousSongs : Nat := 50

/-- Getter `get currentSong()`: `this.songs[this.currentIndex] || null`. -/
def currentSong (q : Queue) : Option Song :=
  q.songs.get? q.currentIndex

/-- Method `_cleanupStreams()`: destroys and nulls `_currentStream` and
`_transcoder` (the `destroy()` calls act on the external handles only). -/
def cleanupStreams (q : Queue) : Queue :=
  { q with currentStream := false, transcoder := false }

/-- Method `stop()` (lines 711-740): resets the playback flags, cleans up
streams, clears the `_emptyTimeout` timer, empties `songs`, resets
`currentIndex`, stops the player and emits `stop`.  The `leaveOnStop`
branch only destroys the external connection handle and removes the queue
from the registry, which lies outside the `Queue` state modelled here. -/
def stop (q : Queue) : Queue × List Event :=
  let q := { q with playing := false, paused := false }
  let q := cleanupStreams q
  let q := { q with emptyTimeout := false }
  let q := { q with songs := [], currentIndex := 0 }
  (q, [Event.stop])

/-- The history push shared by `skip()` and `jump()`: if
`savePreviousSongs` is set and `currentSong` is non-null, push it onto
`previousSongs` and `shift()` the oldest entry when the length exceeds
`maxPreviousSongs`. -/
def pushPrevious (save : Bool) (q : Queue) : Queue :=
  if save then
    match currentSong q with
    | some s =>
        let prev := q.previousSongs ++ [s]
        { q with previousSongs :=
            if prev.length > maxPreviousSongs then prev.tail else prev }
    | none => q
  else q

/-- Method `skip()` (lines 644-677): push the current song into the
history, increment `currentIndex`; at the end of the queue either wrap to 0
(`repeatMode === 2`) or call `stop()` and return (both the `autoplay`
placeholder branch and the plain branch do so); otherwise clean up streams
and stop the player (which asynchronously triggers the next `play()`). -/
def skip (opts : HetubedOptions) (q : Queue) : Queue × List Event :=
  let q := pushPrevious opts.savePreviousSongs q
  let q := { q with currentIndex := q.currentIndex + 1 }
  if q.currentIndex ≥ q.songs.length then
    if q.repeatMode = 2 then
      (cleanupStreams { q with currentIndex := 0 }, [])
    else
      stop q
  else
    (cleanupStreams q, [])

/-- Error raised by `jump()` (`throw new Error('Invalid position')`). -/
inductive QueueError where
  | invalidPosition
deriving DecidableEq, Repr

/-- Result of a method that can throw: `err` records the thrown error (the
JS exception propagates to the caller), `queue` is the state of the queue
object after the call, and `events` the emitted events. -/
structure StepResult where
  err : Option QueueError
  queue : Queue
  events : List Event
deriving DecidableEq, Repr

/-- Method `jump(position)` (lines 782-803): throws `Invalid position` when
`position < 0 || position >= this.songs.length`, before any mutation;
otherwise pushes the current song into the history, sets `currentIndex` to
`position`, cleans up streams and stops the player. -/
def jump (opts : HetubedOptions) (q : Queue) (position : Int) : StepResult :=
  if position < 0 ∨ (q.songs.length : Int) ≤ position then
    { err := some QueueError.invalidPosition, queue := q, events := [] }
  else
    let q := pushPrevious opts.savePreviousSongs q
    let q := { q with currentIndex := position.toNat }
    { err := none, queue := cleanupStreams q, events := [] }

/-- Method `setVolume(volume)` (lines 747-761): clamp to `[0, 100]` via
`Math.max(0, Math.min(100, volume))`; return unchanged with no event when
the clamped value equals the stored one; otherwise store it, update the
live resource gain (external) and emit `volumeChange`. -/
def setVolume (q : Queue) (volume : Int) : Queue × List Event :=
  let newVolume := max 0 (min 100 volume)
  if q.volume = newVolume then (q, [])
  else ({ q with volume := newVolume }, [Event.volumeChange newVolume])

/-- Two consecutive `setVolume` calls with the same argument, collecting
all emitted events. -/
def setVolumeTwice (q : Queue) (volume : Int) : Queue × List Event :=
  let r₁ := setVolume q volume
  let r₂ := setVolume r₁.1 volume
  (r₂.1, r₁.2 ++ r₂.2)

/-- Method `setRepeatMode(mode)` (lines 768-775). -/
def setRepeatMode (q : Queue) (mode : Nat) : Queue × List Event :=
  if q.repeatMode = mode then (q, [])
  else ({ q with repeatMode := mode }, [Event.repeatChange mode])

/-- Method `pause()` (lines 683-691). -/
def pause (q : Queue) : Queue × List Event :=
  if ¬q.playing ∨ q.paused then (q, [])
  else ({ q with paused := true }, [Event.pauseEv])

/-- Method `resume()` (lines 697-705). -/
def resume (q : Queue) : Queue × List Event :=
  if ¬q.playing ∨ ¬q.paused then (q, [])
  else ({ q with paused := false }, [Event.resumeEv])

/-- Input of `addSong(song, member)`: a single song or a playlist array.
The payload is the resolved metadata; `addSong` attaches the member. -/
inductive SongInput where
  | single (sid : Nat)
  | list (sids : List Nat)
deriving DecidableEq, Repr

/-- The spread `{...s, member}` performed by `addSong`. -/
def attach (member : Option Nat) (sid : Nat) : Song :=
  { sid := sid, member := member }

/-- Method `addSong(song, member)` (lines 517-548): append the member-tagged
song(s) to `this.songs`; emit one `addList` event per playlist call when
`emitAddListWhenCreatingQueue || this.songs.length > songs.length`, and one
`addSong` event per single call when
`emitAddSongWhenCreatingQueue || this.songs.length > 1` (both lengths read
after the push). -/
def addSong (opts : HetubedOptions) (q : Queue) (input : SongInput)
    (member : Option Nat) : Queue × List Event :=
  match input with
  | SongInput.list sids =>
      let songs := sids.map (attach member)
      let q' := { q with songs := q.songs ++ songs }
      if opts.emitAddListWhenCreatingQueue ∨ q'.songs.length > songs.length then
        (q', [Event.addList songs])
      else
        (q', [])
  | SongInput.single sid =>
      let newSong := attach member sid
      let q' := { q with songs := q.songs ++ [newSong] }
      if opts.emitAddSongWhenCreatingQueue ∨ q'.songs.length > 1 then
        (q', [Event.addSong newSong])
      else
        (q', [])

/-- Method `play()` (lines 554-614), success path of the `try` block: return
immediately when `songs` is empty; `connect()` (idempotent), return if
`currentSong` is null; set the playing flags, clean up the previous stream,
attach the new stream and transcoder, hand the resource to the player, and
emit `playSong` when `!emitNewSongOnly || currentIndex === 0`.  The `catch`
branch and the stream error callback only fire on external failures and are
not modelled. -/
def play (opts : HetubedOptions) (q : Queue) : Queue × List Event :=
  if q.songs.length = 0 then (q, [])
  else
    let q := { q with connection := true }
    match currentSong q with
    | none => (q, [])
    | some song =>
        let q := { q with playing := true, paused := false }
        let q := cleanupStreams q
        let q := { q with currentStream := true, transcoder := true }
        if ¬opts.emitNewSongOnly ∨ q.currentIndex = 0 then
          (q, [Event.playSong song])
        else
          (q, [])

/-- Simultaneous swap `[arr[i], arr[j]] = [arr[j], arr[i]]` on a list; a
no-op when either index is out of range (never the case inside the
Fisher-Yates loop). -/
def listSwap {α : Type} (l : List α) (i j : Nat) : List α :=
  match l.get? i, l.get? j with
  | some x, some y => (l.set i y).set j x
  | _, _ => l

/-- The Fisher-Yates loop of `shuffle()`:
`for (let i = len - 1; i > 0; i--) swap(i, rnd(i) % (i + 1))`, with the
random draw `Math.floor(Math.random() * (i + 1))` abstracted as
`rnd i % (i + 1)`. -/
def fisherYates {α : Type} (rnd : Nat → Nat) : Nat → List α → List α
  | 0, l => l
  | i + 1, l => fisherYates rnd i (listSwap l (i + 1) (rnd (i + 1) % (i + 2)))

/-- Method `shuffle()` (lines 859-880): no-op when `songs.length <= 1`;
otherwise hold out `songs[currentIndex]`, `splice` it away, Fisher-Yates
shuffle the remainder, `unshift` the held-out song back to the front, reset
`currentIndex` to 0 and emit `shuffle`.  The `none` branch is unreachable
for any queue with `currentIndex < songs.length` (every reachable queue;
see the `IndexOk` lemmas): in JS an out-of-range index would splice nothing
and unshift `undefined`, which has no `Song` counterpart. -/
def shuffle (rnd : Nat → Nat) (q : Queue) : Queue × List Event :=
  if q.songs.length ≤ 1 then (q, [])
  else
    match currentSong q with
    | none => (q, [])
    | some cur =>
        let rest := q.songs.eraseIdx q.currentIndex
        let shuffledRest := fisherYates rnd (rest.length - 1) rest
        ({ q with songs := cur :: shuffledRest, currentIndex := 0 },
         [Event.shuffled])

/-- A user-driven history-mutating call: `skip()` or `jump(position)`. -/
inductive QOp where
  | skipOp
  | jumpOp (position : Int)
deriving DecidableEq, Repr

/-- Applying one `skip()`/`jump()` call to the queue object.  A thrown
`jump` exception propagates to the caller and leaves the queue untouched. -/
def runOp (opts : HetubedOptions) (q : Queue) : QOp → Queue
  | QOp.skipOp => (skip opts q).1
  | QOp.jumpOp p => (jump opts q p).queue

/-- Applying a sequence of `skip()`/`jump()` calls in order. -/
def runOps (opts : HetubedOptions) : Queue → List QOp → Queue
  | q, [] => q
  | q, op :: ops => runOps opts (runOp opts q op) ops

/-- The track a single call pushes into the history: the current song when
`savePreviousSongs` is set and one exists (and, for `jump`, the position is
in range), nothing otherwise. -/
def playedOne (save : Bool) (q : Queue) : List Song :=
  if save then (currentSong q).toList else []

/-- Tracks pushed into the history by one call. -/
def playedOf (opts : HetubedOptions) (q : Queue) : QOp → List Song
  | QOp.skipOp => playedOne opts.savePreviousSongs q
  | QOp.jumpOp p =>
      if p < 0 ∨ (q.songs.length : Int) ≤ p then []
      else playedOne opts.savePreviousSongs q

/-- Tracks pushed into the history along a call sequence, in play order. -/
def playedTrace (opts : HetubedOptions) : Queue → List QOp → List Song
  | _, [] => []
  | q, op :: ops => playedOf opts q op ++ playedTrace opts (runOp opts q op) ops

/-- The last `n` elements of a list. -/
def takeLast {α : Type} (n : Nat) (l : List α) : List α :=
  l.drop (l.length - n)

/-- One `addSong(song, member)` call of an enqueue sequence. -/
structure AddCall where
  input : SongInput
  member : Option Nat
deriving DecidableEq, Repr

/-- Applying a sequence of `addSong` calls in order. -/
def runAdds (opts : HetubedOptions) : Queue → List AddCall → Queue
  | q, [] => q
  | q, c :: cs => runAdds opts (addSong opts q c.input c.member).1 cs

/-- The member-tagged songs a single `addSong` call appends. -/
def addedSongs (c : AddCall) : List Song :=
  match c.input with
  | SongInput.single sid => [attach c.member sid]
  | SongInput.list sids => sids.map (attach c.member)

/-- Concatenation, in call order, of the songs appended by a sequence of
`addSong` calls. -/
def addedAll : List AddCall → List Song
  | [] => []
  | c :: cs => addedSongs c ++ addedAll cs

/-- A fresh idle queue, as the `Queue` constructor initialises it
(`playing = false`, `songs = []`, `currentIndex = 0`, `volume = 50`,
`repeatMode = 0`, no handles attached). -/
def emptyQueue : Queue :=
  { playing := false, paused := false, songs := [], previousSongs := [],
    currentIndex := 0, connection := false, volume := 50, repeatMode := 0,
    autoplay := false, emptyTimeout := false, currentStream := false,
    transcoder := false }

/-- A queue holding two enqueued songs. -/
def qTwo : Queue :=
  { emptyQueue with songs := [⟨0, none⟩, ⟨1, none⟩] }

/-- A queue holding three enqueued songs with the cursor on the middle
one. -/
def qThree : Queue :=
  { emptyQueue with
    songs := [⟨0, none⟩, ⟨1, none⟩, ⟨2, none⟩]
    currentIndex := 1 }

/-- Options with `emitAddSongWhenCreatingQueue` disabled, as a caller may
configure the `Hetubed` constructor. -/
def optsNoCreateEmit : HetubedOptions :=
  { emitAddSongWhenCreatingQueue := false }

/-- A concrete random oracle (always draws 0) for witnesses. -/
def rnd0 : Nat → Nat := fun _ => 0

/-- Setting index `k` to `a` and re-consing the old element `x` permutes a
cons of `a`: the core step behind swap-permutation reasoning. -/
theorem cons_set_perm {α : Type} (a x : α) :
    ∀ (l : List α) (k : Nat), l.get? k = some x →
      List.Perm (x :: l.set k a) (a :: l) := by
  intro l
  induction l with
  | nil => intro k h; simp at h
  | cons b t ih =>
    intro k h
    cases k with
    | zero =>
      simp only [List.get?] at h
      injection h with h
      subst h
      simpa [List.set] using List.Perm.swap a b t
    | succ k =>
      have h' : t.get? k = some x := by simpa [List.get?] using h
      have step1 : List.Perm (x :: b :: t.set k a) (b :: x :: t.set k a) :=
        List.Perm.swap b x _
      have step2 : List.Perm (b :: x :: t.set k a) (b :: a :: t) :=
        List.Perm.cons b (ih k h')
      have step3 : List.Perm (b :: a :: t) (a :: b :: t) := List.Perm.swap a b t
      simpa [List.set] using (step1.trans step2).trans step3

/-- Swapping two in-range elements by a double `set` is a permutation. -/
theorem set_set_perm {α : Type} :
    ∀ (l : List α) (i j : Nat) (x y : α),
      l.get? i = some x → l.get? j = some y →
      List.Perm ((l.set i y).set j x) l := by
  intro l
  induction l with
  | nil => intro i j x y hi _; simp at hi
  | cons b t ih =>
    intro i j x y hi hj
    cases i with
    | zero =>
      simp only [List.get?] at hi
      injection hi with hi
      subst hi
      cases j with
      | zero =>
        simp only [List.get?] at hj
        injection hj with hj
        subst hj
        simp [List.set]
      | succ j =>
        have hj' : t.get? j = some y := by simpa [List.get?] using hj
        simpa [List.set] using cons_set_perm b y t j hj'
    | succ i =>
      have hi' : t.get? i = some x := by simpa [List.get?] using hi
      cases j with
      | zero =>
        simp only [List.get?] at hj
        injection hj with hj
        subst hj
        simpa [List.set] using cons_set_perm b x t i hi'
      | succ j =>
        have hj' : t.get? j = some y := by simpa [List.get?] using hj
        simpa [List.set] using List.Perm.cons b (ih i j x y hi' hj')

/-- Re-consing the element at an in-range index onto the `eraseIdx`
remainder is a permutation of the original list. -/
theorem cons_eraseIdx_perm {α : Type} :
    ∀ (l : List α) (i : Nat) (x : α), l.get? i = some x →
      List.Perm (x :: l.eraseIdx i) l := by
  intro l
  induction l with
  | nil => intro i x h; simp at h
  | cons b t ih =>
    intro i x h
    cases i with
    | zero =>
      simp only [List.get?] at h
      injection h with h
      subst h
      simp [List.eraseIdx]
    | succ i =>
      have h' : t.get? i = some x := by simpa [List.get?] using h
      have : (b :: t).eraseIdx (i + 1) = b :: t.eraseIdx i := rfl
      rw [this]
      exact (List.Perm.swap b x _).trans (List.Perm.cons b (ih i x h'))

/-- One destructuring swap of the Fisher-Yates loop is a permutation. -/
theorem listSwap_perm {α : Type} (l : List α) (i j : Nat) :
    List.Perm (listSwap l i j) l := by
  unfold listSwap
  cases hi : l.get? i with
  | none => simp
  | some x =>
    cases hj : l.get? j with
    | none => simp
    | some y => exact set_set_perm l i j x y hi hj

/-- The whole Fisher-Yates loop permutes its input. -/
theorem fisherYates_perm {α : Type} (rnd : Nat → Nat) :
    ∀ (n : Nat) (l : List α), List.Perm (fisherYates rnd n l) l := by
  intro n
  induction n with
  | zero => intro l; simp [fisherYates]
  | succ n ih =>
    intro l
    exact (ih _).trans (listSwap_perm l (n + 1) (rnd (n + 1) % (n + 2)))

/-- Lists no longer than `n` are their own last `n` elements. -/
theorem takeLast_of_le {α : Type} {n : Nat} {l : List α} (h : l.length ≤ n) :
    takeLast n l = l := by
  unfold takeLast
  rw [Nat.sub_eq_zero_of_le h, List.drop_zero]

/-- The last `n` elements are at most `n` elements. -/
theorem takeLast_length_le {α : Type} (n : Nat) (l : List α) :
    (takeLast n l).length ≤ n := by
  unfold takeLast
  rw [List.length_drop]
  omega

/-- A long enough right factor determines the last `n` elements. -/
theorem takeLast_append_of_le {α : Type} {n : Nat} (a : List α) {b : List α}
    (h : n ≤ b.length) : takeLast n (a ++ b) = takeLast n b := by
  unfold takeLast
  rw [List.length_append]
  have h1 : a.length + b.length - n = a.length + (b.length - n) := by omega
  rw [h1, ← List.drop_drop, List.drop_left]

/-- Pre-truncating to the last `n` elements commutes with appending and
re-truncating: the ring-buffer composition law. -/
theorem takeLast_takeLast_append {α : Type} (n : Nat) (x c : List α) :
    takeLast n (takeLast n x ++ c) = takeLast n (x ++ c) := by
  by_cases hx : x.length ≤ n
  · rw [takeLast_of_le hx]
  · push_neg at hx
    have lhs_eq : takeLast n (takeLast n x ++ c)
        = List.drop c.length (takeLast n x ++ c) := by
      unfold takeLast
      congr 1
      simp only [List.length_append, List.length_drop]
      omega
    have rhs_eq : takeLast n (x ++ c)
        = List.drop c.length (takeLast n x ++ c) := by
      unfold takeLast
      have h2 : (x ++ c).length - n = (x.length - n) + c.length := by
        simp only [List.length_append]
        omega
      rw [h2, ← List.drop_drop,
          List.drop_append_of_le_length (Nat.sub_le x.length n)]
    rw [lhs_eq, rhs_eq]

/-- The history push leaves `songs` untouched. -/
theorem pushPrevious_songs (save : Bool) (q : Queue) :
    (pushPrevious save q).songs = q.songs := by
  unfold pushPrevious
  split
  · split <;> rfl
  · rfl

/-- The history push leaves `currentIndex` untouched. -/
theorem pushPrevious_currentIndex (save : Bool) (q : Queue) :
    (pushPrevious save q).currentIndex = q.currentIndex := by
  unfold pushPrevious
  split
  · split <;> rfl
  · rfl

/-- The history push leaves `repeatMode` untouched. -/
theorem pushPrevious_repeatMode (save : Bool) (q : Queue) :
    (pushPrevious save q).repeatMode = q.repeatMode := by
  unfold pushPrevious
  split
  · split <;> rfl
  · rfl

/-- Without a current song the history push is the identity. -/
theorem pushPrevious_of_none (save : Bool) {q : Queue}
    (hc : currentSong q = none) : pushPrevious save q = q := by
  unfold pushPrevious
  rw [hc]
  split <;> rfl

/-- The bounded history push is exactly a ring-buffer append: keep the last
50 elements of the old history extended by the pushed track. -/
theorem pushPrevious_previousSongs (save : Bool) (q : Queue)
    (h : q.previousSongs.length ≤ 50) :
    (pushPrevious save q).previousSongs =
      takeLast 50 (q.previousSongs ++ playedOne save q) := by
  unfold pushPrevious playedOne
  cases save with
  | false =>
      simp only [Bool.false_eq_true, if_false, List.append_nil]
      exact (takeLast_of_le h).symm
  | true =>
      simp only [if_true]
      cases hc : currentSong q with
      | none =>
          simp only [Option.toList, List.append_nil]
          exact (takeLast_of_le h).symm
      | some s =>
          simp only [Option.toList, maxPreviousSongs]
          by_cases hlen : (q.previousSongs ++ [s]).length > 50
          · rw [if_pos hlen]
            have h50 : q.previousSongs.length = 50 := by
              simp only [List.length_append, List.length_cons,
                List.length_nil] at hlen
              omega
            unfold takeLast
            rw [List.length_append]
            have : q.previousSongs.length + [s].length - 50 = 1 := by
              simp only [List.length_cons, List.length_nil]
              omega
            rw [this, List.drop_one]
          · rw [if_neg hlen]
            refine (takeLast_of_le ?_).symm
            simp only [List.length_append, List.length_cons,
              List.length_nil] at hlen ⊢
            omega

/-- `skip()` changes the history exactly through the shared push. -/
theorem skip_previousSongs (opts : HetubedOptions) (q : Queue) :
    (skip opts q).1.previousSongs =
      (pushPrevious opts.savePreviousSongs q).previousSongs := by
  unfold skip
  dsimp only
  split
  · split <;> rfl
  · rfl

/-- A successful `jump()` changes the history exactly through the shared
push; a thrown `jump()` leaves the queue untouched. -/
theorem jump_previousSongs (opts : HetubedOptions) (q : Queue) (p : Int) :
    (jump opts q p).queue.previousSongs =
      (if p < 0 ∨ (q.songs.length : Int) ≤ p then q
       else pushPrevious opts.savePreviousSongs q).previousSongs := by
  unfold jump
  split
  · simp only []
  · rfl

/-- One `skip()`/`jump()` call updates the history as a 50-slot ring
buffer fed by the tracks it pushes. -/
theorem runOp_previousSongs (opts : HetubedOptions) (q : Queue) (op : QOp)
    (h : q.previousSongs.length ≤ 50) :
    (runOp opts q op).previousSongs =
      takeLast 50 (q.previousSongs ++ playedOf opts q op) := by
  cases op with
  | skipOp =>
      rw [runOp, skip_previousSongs, playedOf,
        pushPrevious_previousSongs _ _ h]
  | jumpOp p =>
      rw [runOp, jump_previousSongs, playedOf]
      split
      · rw [List.append_nil]
        exact (takeLast_of_le h).symm
      · rw [pushPrevious_previousSongs _ _ h]

/-- An `addSong` call appends exactly its member-tagged input songs. -/
theorem addSong_songs (opts : HetubedOptions) (q : Queue) (input : SongInput)
    (m : Option Nat) :
    (addSong opts q input m).1.songs = q.songs ++ addedSongs ⟨input, m⟩ := by
  cases input with
  | single sid =>
      unfold addSong addedSongs
      dsimp only
      split <;> rfl
  | list sids =>
      unfold addSong addedSongs
      dsimp only
      split <;> rfl

/-- An `addSong` call leaves the cursor untouched. -/
theorem addSong_currentIndex (opts : HetubedOptions) (q : Queue)
    (input : SongInput) (m : Option Nat) :
    (addSong opts q input m).1.currentIndex = q.currentIndex := by
  cases input with
  | single sid =>
      unfold addSong
      dsimp only
      split <;> rfl
  | list sids =>
      unfold addSong
      dsimp only
      split <;> rfl

/-- Cursor invariant maintained by every modelled operation: the cursor is
0 or points inside `songs`.  A fresh queue satisfies it, so every reachable
queue does; together with `songs.length ≥ 2` it puts `currentSong` in
range, which is what justifies dropping the `undefined` branch from the
`shuffle` model. -/
def IndexOk (q : Queue) : Prop :=
  q.currentIndex = 0 ∨ q.currentIndex < q.songs.length

/-- With a nonempty queue the cursor invariant makes `currentSong`
non-null. -/
theorem currentSong_isSome_of_indexOk {q : Queue} (h : IndexOk q)
    (hne : q.songs ≠ []) : (currentSong q).isSome := by
  unfold currentSong
  rcases h with h | h
  · rw [h]
    cases hq : q.songs with
    | nil => exact absurd hq hne
    | cons a t => simp
  · simp [List.get?_eq_getElem?, List.getElem?_eq_getElem h]

/-- Invariant preservation: `stop()`. -/
theorem indexOk_stop (q : Queue) : IndexOk (stop q).1 :=
  Or.inl rfl

/-- Invariant preservation: `addSong`. -/
theorem indexOk_addSong (opts : HetubedOptions) (q : Queue)
    (input : SongInput) (m : Option Nat) (h : IndexOk q) :
    IndexOk (addSong opts q input m).1 := by
  rcases h with h | h
  · exact Or.inl (by rw [addSong_currentIndex]; exact h)
  · refine Or.inr ?_
    rw [addSong_currentIndex, addSong_songs, List.length_append]
    omega

/-- Invariant preservation: `skip()`. -/
theorem indexOk_skip (opts : HetubedOptions) (q : Queue) :
    IndexOk (skip opts q).1 := by
  unfold skip
  dsimp only
  split
  · split
    · exact Or.inl rfl
    · exact Or.inl rfl
  · rename_i hlt
    exact Or.inr (by simpa [cleanupStreams] using Nat.lt_of_not_le hlt)

/-- Invariant preservation: `jump()`. -/
theorem indexOk_jump (opts : HetubedOptions) (q : Queue) (p : Int)
    (h : IndexOk q) : IndexOk (jump opts q p).queue := by
  unfold jump
  split
  · exact h
  · rename_i hin
    refine Or.inr ?_
    simp only [cleanupStreams, pushPrevious_songs]
    omega

/-- Invariant preservation: `shuffle()`. -/
theorem indexOk_shuffle (rnd : Nat → Nat) (q : Queue) (h : IndexOk q) :
    IndexOk (shuffle rnd q).1 := by
  unfold shuffle
  split
  · exact h
  · split
    · exact h
    · exact Or.inl rfl

/-- C1: after `stop()` the track list is empty, the cursor is 0, the
playback state is Idle (`playing = false` and `paused = false`), and no
stream, transcoder or idle timer remains attached, from any prior state. -/
theorem stop_clears_session (q : Queue) :
    (stop q).1.songs = [] ∧ (stop q).1.currentIndex = 0 ∧
    (stop q).1.playing = false ∧ (stop q).1.paused = false ∧
    (stop q).1.currentStream = false ∧ (stop q).1.transcoder = false ∧
    (stop q).1.emptyTimeout = false :=
  ⟨rfl, rfl, rfl, rfl, rfl, rfl, rfl⟩

/-- C2: `jump(position)` throws `Invalid position` exactly when `position`
lies outside `[0, songs.length)`, and a throwing call leaves every field of
the queue unchanged and emits nothing. -/
theorem jump_out_of_range_spec (opts : HetubedOptions) (q : Queue) (p : Int) :
    ((jump opts q p).err.isSome ↔ (p < 0 ∨ (q.songs.length : Int) ≤ p)) ∧
    ((p < 0 ∨ (q.songs.length : Int) ≤ p) →
       (jump opts q p).queue = q ∧ (jump opts q p).events = []) := by
  unfold jump
  split <;> simp_all

/-- Witness: `jump(-1)` on a fresh empty queue throws and changes
nothing. -/
theorem jump_out_of_range_spec_witness :
    ((-1 : Int) < 0 ∨ ((emptyQueue.songs.length : Int) ≤ (-1 : Int))) ∧
    ((jump {} emptyQueue (-1)).queue = emptyQueue ∧
     (jump {} emptyQueue (-1)).events = []) :=
  ⟨Or.inl (by decide),
   (jump_out_of_range_spec {} emptyQueue (-1)).2 (Or.inl (by decide))⟩

/-- C9: `play()` on an empty track list returns immediately: no fault, no
state change, no event. -/
theorem play_empty_noop (opts : HetubedOptions) (q : Queue)
    (h : q.songs = []) : play opts q = (q, []) := by
  unfold play
  rw [if_pos (by rw [h]; rfl)]

/-- Witness: `play()` on the fresh empty queue is a no-op. -/
theorem play_empty_noop_witness :
    emptyQueue.songs = [] ∧ play {} emptyQueue = (emptyQueue, []) :=
  ⟨rfl, play_empty_noop {} emptyQueue rfl⟩

/-- C10: `skip()` on an empty queue whose `repeatMode` is not 2 (Queue)
throws nothing, leaves the history untouched, and performs the full
`stop()` transition: cursor 0, `playing = false`, `paused = false`, and a
`stop` event. -/
theorem skip_empty_stops (opts : HetubedOptions) (q : Queue)
    (h1 : q.songs = []) (h2 : q.repeatMode ≠ 2) :
    (skip opts q).1.previousSongs = q.previousSongs ∧
    (skip opts q).1.songs = [] ∧ (skip opts q).1.currentIndex = 0 ∧
    (skip opts q).1.playing = false ∧ (skip opts q).1.paused = false ∧
    (skip opts q).2 = [Event.stop] := by
  have hc : currentSong q = none := by
    unfold currentSong
    rw [h1]
    rfl
  have hp : pushPrevious opts.savePreviousSongs q = q :=
    pushPrevious_of_none _ hc
  unfold skip
  dsimp only
  rw [hp]
  rw [if_pos (by rw [h1]; exact Nat.zero_le _)]
  rw [if_neg (by simpa using h2)]
  exact ⟨rfl, rfl, rfl, rfl, rfl, rfl⟩

/-- Witness: `skip()` on the fresh empty queue (whose `repeatMode` is 0)
performs the `stop()` transition. -/
theorem skip_empty_stops_witness :
    (emptyQueue.songs = [] ∧ emptyQueue.repeatMode ≠ 2) ∧
    ((skip {} emptyQueue).1.previousSongs = emptyQueue.previousSongs ∧
     (skip {} emptyQueue).1.songs = [] ∧
     (skip {} emptyQueue).1.currentIndex = 0 ∧
     (skip {} emptyQueue).1.playing = false ∧
     (skip {} emptyQueue).1.paused = false ∧
     (skip {} emptyQueue).2 = [Event.stop]) :=
  ⟨⟨rfl, by decide⟩, skip_empty_stops {} emptyQueue rfl (by decide)⟩

/-- C3: `skip()` advances the cursor by exactly 1 short of the end; with
`repeatMode = 2` (Queue) it wraps to 0 when the incremented cursor reaches
the end; with `repeatMode = 0` (Off) at the end it performs the same state
change as `stop()` (tracks cleared, cursor 0, Idle) and returns, emitting
the `stop` event. -/
theorem skip_cursor_spec (opts : HetubedOptions) (q : Queue) :
    (q.currentIndex + 1 < q.songs.length →
       (skip opts q).1.currentIndex = q.currentIndex + 1 ∧
       (skip opts q).1.songs = q.songs) ∧
    (q.repeatMode = 2 → q.songs.length ≤ q.currentIndex + 1 →
       (skip opts q).1.currentIndex = 0) ∧
    (q.repeatMode = 0 → q.songs.length ≤ q.currentIndex + 1 →
       (skip opts q).1.songs = [] ∧ (skip opts q).1.currentIndex = 0 ∧
       (skip opts q).1.playing = false ∧ (skip opts q).1.paused = false ∧
       (skip opts q).2 = [Event.stop]) := by
  refine ⟨?_, ?_, ?_⟩
  · intro h
    unfold skip
    dsimp only
    rw [if_neg (by
      simp only [pushPrevious_currentIndex, pushPrevious_songs]
      omega)]
    simp [cleanupStreams, pushPrevious_currentIndex, pushPrevious_songs]
  · intro hm h
    unfold skip
    dsimp only
    rw [if_pos (by
      simp only [pushPrevious_currentIndex, pushPrevious_songs]
      omega)]
    rw [if_pos (by simpa [pushPrevious_repeatMode] using hm)]
    rfl
  · intro hm h
    unfold skip
    dsimp only
    rw [if_pos (by
      simp only [pushPrevious_currentIndex, pushPrevious_songs]
      omega)]
    rw [if_neg (by simp [pushPrevious_repeatMode, hm])]
    exact ⟨rfl, rfl, rfl, rfl, rfl⟩

/-- Witness: on a two-song queue with the cursor at 0, `skip()` moves the
cursor to 1. -/
theorem skip_cursor_spec_witness :
    (qTwo.currentIndex + 1 < qTwo.songs.length) ∧
    ((skip {} qTwo).1.currentIndex = qTwo.currentIndex + 1 ∧
     (skip {} qTwo).1.songs = qTwo.songs) :=
  ⟨by decide, (skip_cursor_spec {} qTwo).1 (by decide)⟩

/-- C6: a sequence of `addSong` calls produces exactly the concatenation,
in call order, of the inputs, each track tagged with the member supplied by
the call that added it. -/
theorem addSong_order_spec (opts : HetubedOptions) :
    ∀ (cs : List AddCall) (q : Queue),
      (runAdds opts q cs).songs = q.songs ++ addedAll cs := by
  intro cs
  induction cs with
  | nil =>
      intro q
      simp [runAdds, addedAll]
  | cons c cs ih =>
      intro q
      have hstep := addSong_songs opts q c.input c.member
      calc (runAdds opts q (c :: cs)).songs
          = (runAdds opts (addSong opts q c.input c.member).1 cs).songs := rfl
        _ = (addSong opts q c.input c.member).1.songs ++ addedAll cs := ih _
        _ = (q.songs ++ addedSongs c) ++ addedAll cs := by rw [hstep]
        _ = q.songs ++ addedAll (c :: cs) := by
              rw [List.append_assoc]
              rfl

/-- Counterexample to C7 as stated: with
`emitAddSongWhenCreatingQueue: false` the very first `addSong` on an empty
queue emits zero add events. -/
theorem addSong_zero_events_cex :
    (addSong optsNoCreateEmit emptyQueue (SongInput.single 0) none).2 = [] ∧
    (addSong optsNoCreateEmit emptyQueue (SongInput.single 0) none).2.length
      ≠ 1 := by
  constructor
  · rfl
  · decide

/-- C7 (amended): an `addSong` call emits at most one add event — one
`addSong` event for a single track, one `addList` event for a whole list,
never one per item; it emits exactly one unless the queue was empty before
the call and the matching `emitAdd*WhenCreatingQueue` option is disabled,
in which case it emits none.  (The queue-creation event is emitted by
`Hetubed._createQueue` when the queue object is created, not by
`addSong`.) -/
theorem addSong_event_count (opts : HetubedOptions) (q : Queue)
    (m : Option Nat) :
    (∀ sid, (addSong opts q (SongInput.single sid) m).2 =
       if opts.emitAddSongWhenCreatingQueue ∨ q.songs ≠ [] then
         [Event.addSong (attach m sid)]
       else []) ∧
    (∀ sids, (addSong opts q (SongInput.list sids) m).2 =
       if opts.emitAddListWhenCreatingQueue ∨ q.songs ≠ [] then
         [Event.addList (sids.map (attach m))]
       else []) := by
  constructor
  · intro sid
    unfold addSong
    dsimp only
    have hiff : (opts.emitAddSongWhenCreatingQueue ∨
        (q.songs ++ [attach m sid]).length > 1) ↔
        (opts.emitAddSongWhenCreatingQueue ∨ q.songs ≠ []) := by
      rw [List.length_append]
      constructor
      · rintro (h | h)
        · exact Or.inl h
        · refine Or.inr ?_
          intro hnil
          rw [hnil] at h
          simp at h
      · rintro (h | h)
        · exact Or.inl h
        · refine Or.inr ?_
          have hlen : q.songs.length ≠ 0 := by
            intro h0
            exact h (List.length_eq_zero.mp h0)
          simp only [List.length_cons, List.length_nil]
          omega
    split
    · rename_i hc
      rw [if_pos (hiff.mp hc)]
    · rename_i hc
      rw [if_neg (fun h => hc (hiff.mpr h))]
  · intro sids
    unfold addSong
    dsimp only
    have hiff : (opts.emitAddListWhenCreatingQueue ∨
        (q.songs ++ sids.map (attach m)).length > (sids.map (attach m)).length)
        ↔ (opts.emitAddListWhenCreatingQueue ∨ q.songs ≠ []) := by
      rw [List.length_append]
      constructor
      · rintro (h | h)
        · exact Or.inl h
        · refine Or.inr ?_
          intro hnil
          rw [hnil] at h
          simp at h
      · rintro (h | h)
        · exact Or.inl h
        · refine Or.inr ?_
          have : q.songs.length ≠ 0 := by
            intro h0
            exact h (List.length_eq_zero.mp h0)
          omega
    split
    · rename_i hc
      rw [if_pos (hiff.mp hc)]
    · rename_i hc
      rw [if_neg (fun h => hc (hiff.mpr h))]

/-- C4: on at most one track `shuffle()` changes nothing; on two or more
tracks (under the cursor invariant, which every reachable queue satisfies)
it leaves the pre-shuffle current track at index 0, resets the cursor to 0,
and permutes the tracks without loss or duplication. -/
theorem shuffle_spec (rnd : Nat → Nat) (q : Queue) :
    (q.songs.length ≤ 1 → shuffle rnd q = (q, [])) ∧
    (2 ≤ q.songs.length → q.currentIndex < q.songs.length →
       (shuffle rnd q).1.songs.get? 0 = currentSong q ∧
       (shuffle rnd q).1.currentIndex = 0 ∧
       List.Perm (shuffle rnd q).1.songs q.songs) := by
  constructor
  · intro h
    unfold shuffle
    rw [if_pos h]
  · intro h2 hidx
    have hc : currentSong q = some (q.songs.get ⟨q.currentIndex, hidx⟩) := by
      unfold currentSong
      simp [List.get?_eq_getElem?, List.getElem?_eq_getElem hidx]
    unfold shuffle
    rw [if_neg (by omega), hc]
    dsimp only
    refine ⟨rfl, rfl, ?_⟩
    have hperm1 :
        List.Perm
          (fisherYates rnd ((q.songs.eraseIdx q.currentIndex).length - 1)
            (q.songs.eraseIdx q.currentIndex))
          (q.songs.eraseIdx q.currentIndex) :=
      fisherYates_perm rnd _ _
    have hperm2 :
        List.Perm
          (q.songs.get ⟨q.currentIndex, hidx⟩ :: q.songs.eraseIdx q.currentIndex)
          q.songs :=
      cons_eraseIdx_perm q.songs q.currentIndex _ hc
    exact (List.Perm.cons _ hperm1).trans hperm2

/-- Witness: shuffling a three-song queue with the cursor on the middle
song keeps that song, moves it to the front, and loses nothing. -/
theorem shuffle_spec_witness :
    (2 ≤ qThree.songs.length ∧ qThree.currentIndex < qThree.songs.length) ∧
    ((shuffle rnd0 qThree).1.songs.get? 0 = currentSong qThree ∧
     (shuffle rnd0 qThree).1.currentIndex = 0 ∧
     List.Perm (shuffle rnd0 qThree).1.songs qThree.songs) :=
  ⟨⟨by decide, by decide⟩,
   (shuffle_spec rnd0 qThree).2 (by decide) (by decide)⟩

/-- C5: across any sequence of `skip()`/`jump()` calls the history never
exceeds 50 entries; it always equals the last 50 entries of the initial
history extended by the played tracks in play order (oldest evicted
first), and once at least 50 tracks have been played it is exactly the 50
most recently played tracks. -/
theorem history_ring_buffer_spec (opts : HetubedOptions) :
    ∀ (ops : List QOp) (q : Queue), q.previousSongs.length ≤ 50 →
      (runOps opts q ops).previousSongs.length ≤ 50 ∧
      (runOps opts q ops).previousSongs =
        takeLast 50 (q.previousSongs ++ playedTrace opts q ops) ∧
      (50 ≤ (playedTrace opts q ops).length →
        (runOps opts q ops).previousSongs =
          takeLast 50 (playedTrace opts q ops)) := by
  intro ops
  induction ops with
  | nil =>
      intro q h
      refine ⟨h, ?_, ?_⟩
      · rw [playedTrace, List.append_nil, takeLast_of_le h]
        rfl
      · intro h50
        rw [playedTrace] at h50
        simp at h50
  | cons op ops ih =>
      intro q h
      have hstep := runOp_previousSongs opts q op h
      have h' : (runOp opts q op).previousSongs.length ≤ 50 := by
        rw [hstep]
        exact takeLast_length_le _ _
      obtain ⟨ihl, ihe, ihp⟩ := ih (runOp opts q op) h'
      have hmain : (runOps opts q (op :: ops)).previousSongs =
          takeLast 50 (q.previousSongs ++ playedTrace opts q (op :: ops)) := by
        have e1 : runOps opts q (op :: ops) = runOps opts (runOp opts q op) ops :=
          rfl
        rw [e1, ihe, hstep, takeLast_takeLast_append, List.append_assoc]
        rfl
      refine ⟨?_, hmain, ?_⟩
      · rw [hmain]
        exact takeLast_length_le _ _
      · intro h50
        rw [hmain]
        exact takeLast_append_of_le _ h50

/-- Witness: one `skip()` on a two-song queue keeps the history within the
50-entry bound. -/
theorem history_ring_buffer_spec_witness :
    qTwo.previousSongs.length ≤ 50 ∧
    (runOps {} qTwo [QOp.skipOp]).previousSongs.length ≤ 50 :=
  ⟨by decide,
   (history_ring_buffer_spec {} [QOp.skipOp] qTwo (by decide)).1⟩

/-- Counterexample to C8 as stated: when the requested value already equals
the stored volume, two identical `setVolume(50)` calls emit zero
volume-changed events in total, not exactly one. -/
theorem setVolume_twice_cex :
    (setVolumeTwice emptyQueue 50).2 = [] ∧
    (setVolumeTwice emptyQueue 50).2.length ≠ 1 := by
  constructor
  · rfl
  · decide

/-- C8 (amended): `setVolume(v)` stores `v` clamped to `[0, 100]` and is a
no-op without an event when the clamped value equals the stored volume;
hence two calls with the same value emit exactly one volume-changed event
when the clamped value differs from the starting volume, and zero
otherwise. -/
theorem setVolume_clamp_spec (q : Queue) (v : Int) :
    ((setVolume q v).1.volume = max 0 (min 100 v)) ∧
    (q.volume = max 0 (min 100 v) → setVolume q v = (q, [])) ∧
    ((setVolumeTwice q v).2 =
       if q.volume = max 0 (min 100 v) then []
       else [Event.volumeChange (max 0 (min 100 v))]) := by
  have hnoop : ∀ (q' : Queue), q'.volume = max 0 (min 100 v) →
      setVolume q' v = (q', []) := by
    intro q' hq
    unfold setVolume
    dsimp only
    rw [if_pos hq]
  refine ⟨?_, hnoop q, ?_⟩
  · unfold setVolume
    dsimp only
    split
    · rename_i hq
      exact hq
    · rfl
  · by_cases h : q.volume = max 0 (min 100 v)
    · rw [if_pos h]
      unfold setVolumeTwice
      dsimp only
      simp only [hnoop q h]
      rfl
    · rw [if_neg h]
      unfold setVolumeTwice
      dsimp only
      have hfirst : setVolume q v =
          ({ q with volume := max 0 (min 100 v) },
           [Event.volumeChange (max 0 (min 100 v))]) := by
        unfold setVolume
        dsimp only
        rw [if_neg h]
      rw [hfirst]
      dsimp only
      rw [hnoop { q with volume := max 0 (min 100 v) } rfl]
      rfl

/-- Witness: `setVolume(50)` on a queue already at volume 50 is a no-op
without an event. -/
theorem setVolume_clamp_spec_witness :
    (emptyQueue.volume = max 0 (min 100 50)) ∧
    setVolume emptyQueue 50 = (emptyQueue, []) :=
  ⟨by decide, (setVolume_clamp_spec emptyQueue 50).2.1 (by decide)⟩

end Hetubed

